import Mathlib

/-!
Verification of the binning/statistics core of pangeo-pyinterp.

The source of truth is `src/pyinterp/core/include/pyinterp/binning.hpp`
(the `Binning2D` engine) and
`src/pyinterp/core/include/pyinterp/detail/math/window_functions.hpp`
(the window functions).  External collaborators that the engine consumes
(the `Axis` index resolution, the boost statistics accumulators, the
`detail::math::binning` weight computation and the area strategies) are
not part of the provided sources; they are modelled from the
specification, as marked on each definition.

Real values are embedded as rationals.  A possibly-NaN floating point
value (the `z` samples) is embedded as `Option ℚ`, where `none` plays the
role of NaN; coordinates in the claims are always finite and are embedded
as plain rationals.
-/

namespace PyInterp

/-- Modelled from the spec: `normalize(value, reference, period)` rewraps
`value` into the representative period starting at `reference`
(the C++ helper `detail::math::normalize_angle(x, min, circle)`, which is
`remainder(x - min, circle) + min`, i.e. the value congruent to `x`
modulo `circle` lying in `[min, min + circle)`). -/
def normalize_angle (x reference period : ℚ) : ℚ :=
  x - period * ⌊(x - reference) / period⌋

/-- Modelled from the spec: an `Axis` is an ordered sequence of bin edges
along one dimension together with an angular (periodic) flag. -/
structure Axis where
  edges : List ℚ
  angular : Bool
deriving DecidableEq

/-- Index of the edge nearest to `v` among `edges` (first one on ties). -/
def nearestIdx (edges : List ℚ) (v : ℚ) : ℕ :=
  (List.range edges.length).foldl
    (fun best i =>
      if |edges.getD i 0 - v| < |edges.getD best 0 - v| then i else best) 0

/-- The wrapped representative of a query coordinate: an angular axis
normalizes the coordinate into the period starting at its first edge. -/
def Axis.wrap (ax : Axis) (x : ℚ) : ℚ :=
  match ax.edges with
  | [] => x
  | e :: _ => if ax.angular then normalize_angle x e 360 else x

/-- Modelled from the spec: `find_index(value, clamp)` performs nearest-bin
resolution; when `clamp` is set, out-of-range values snap to the nearest
valid edge instead of failing (`none` plays the role of the C++ `-1`). -/
def Axis.find_index (ax : Axis) (x : ℚ) (clamp : Bool) : Option ℕ :=
  match ax.edges with
  | [] => none
  | e :: es =>
    let v := ax.wrap x
    let n := (e :: es).length
    if v < e then (if clamp then some 0 else none)
    else if (e :: es).getLast (by simp) < v then
      (if clamp then some (n - 1) else none)
    else some (nearestIdx (e :: es) v)

/-- Modelled from the spec: `find_indexes(value)` returns the bracketing
pair of indices whose edges contain `value`, or `none` when the value is
outside the axis domain. -/
def Axis.find_indexes (ax : Axis) (x : ℚ) : Option (ℕ × ℕ) :=
  match ax.edges with
  | [] => none
  | e :: es =>
    let v := ax.wrap x
    match (List.range es.length).find?
        (fun i => decide ((e :: es).getD i 0 ≤ v ∧ v ≤ (e :: es).getD (i + 1) 0)) with
    | some i => some (i, i + 1)
    | none => none

/-- Whether a (non-angular) coordinate lies within the axis domain, i.e.
between the first and last edge. -/
def Axis.inDomain (ax : Axis) (x : ℚ) : Bool :=
  match ax.edges with
  | [] => false
  | e :: es => decide (e ≤ x) && decide (x ≤ (e :: es).getLast (by simp))

/-- The number of points of the axis (the C++ `Axis::size()`). -/
def Axis.size (ax : Axis) : ℕ := ax.edges.length

/-- Modelled from the spec: the per-cell streaming statistics state, the
`Accumulators` boost accumulator set of `Binning2D` (tags count, kurtosis,
max, mean, median, min, skewness, sum, lazy variance).  The running
moment sums mirror the boost per-tag accumulators; `vals` is the abstract
state of the streaming median estimator: the insertion sequence it is a
deterministic function of. -/
structure Accumulators where
  countAcc : ℕ
  sumAcc : ℚ
  sumSqAcc : ℚ
  sumCubeAcc : ℚ
  sumQuadAcc : ℚ
  minAcc : Option ℚ
  maxAcc : Option ℚ
  vals : List ℚ
deriving DecidableEq

/-- The freshly constructed accumulator, having absorbed zero samples. -/
def Accumulators.empty : Accumulators :=
  ⟨0, 0, 0, 0, 0, none, none, []⟩

/-- Absorb one value (the C++ `acc_(ix, iy)(value)` application). -/
def Accumulators.accumulate (a : Accumulators) (v : ℚ) : Accumulators where
  countAcc := a.countAcc + 1
  sumAcc := a.sumAcc + v
  sumSqAcc := a.sumSqAcc + v ^ 2
  sumCubeAcc := a.sumCubeAcc + v ^ 3
  sumQuadAcc := a.sumQuadAcc + v ^ 4
  minAcc := some (match a.minAcc with | none => v | some m => Min.min m v)
  maxAcc := some (match a.maxAcc with | none => v | some m => Max.max m v)
  vals := v :: a.vals

/-- The `count` statistic: number of absorbed samples. -/
def Accumulators.count (a : Accumulators) : ℕ := a.countAcc

/-- The `sum` statistic: 0 for an empty accumulator. -/
def Accumulators.sum (a : Accumulators) : ℚ := a.sumAcc

/-- Modelled from the spec: the `min` statistic; on an accumulator that
absorbed zero samples every statistic except count and sum reads as a
defined no-data sentinel, embedded as `none`. -/
def Accumulators.min (a : Accumulators) : Option ℚ := a.minAcc

/-- Modelled from the spec: the `max` statistic, sentinel on empty. -/
def Accumulators.max (a : Accumulators) : Option ℚ := a.maxAcc

/-- The `mean` statistic: sum divided by count, sentinel on empty. -/
def Accumulators.mean (a : Accumulators) : Option ℚ :=
  if a.countAcc = 0 then none else some (a.sumAcc / a.countAcc)

/-- The lazy `variance` statistic: second raw moment minus squared mean,
sentinel on empty. -/
def Accumulators.variance (a : Accumulators) : Option ℚ :=
  if a.countAcc = 0 then none
  else some (a.sumSqAcc / a.countAcc - (a.sumAcc / a.countAcc) ^ 2)

/-- Modelled from the spec: the approximate streaming `median`.  The P²
estimator of the code is not among the sources; it is abstracted here as
a deterministic positional selection from the insertion sequence, which
preserves the two specified behaviours: the sentinel (`none`) on an empty
accumulator, and determinism for a fixed insertion order. -/
def Accumulators.median (a : Accumulators) : Option ℚ :=
  a.vals.get? (a.vals.length / 2)

/-- Modelled from the spec: the `skewness` statistic.  The boost value
divides the third central moment by `variance^(3/2)`, which is irrational
over ℚ; the nonempty value is abstracted (third central moment divided by
squared second), preserving the specified empty-accumulator sentinel. -/
def Accumulators.skewness (a : Accumulators) : Option ℚ :=
  if a.countAcc = 0 then none
  else
    let m1 := a.sumAcc / a.countAcc
    let mu2 := a.sumSqAcc / a.countAcc - m1 ^ 2
    let mu3 := a.sumCubeAcc / a.countAcc - 3 * m1 * (a.sumSqAcc / a.countAcc)
      + 2 * m1 ^ 3
    some (mu3 / mu2 ^ 2)

/-- Modelled from the spec: the excess `kurtosis` statistic (fourth
central moment over squared second central moment, minus 3), sentinel on
empty; division by a zero central moment follows the ℚ convention. -/
def Accumulators.kurtosis (a : Accumulators) : Option ℚ :=
  if a.countAcc = 0 then none
  else
    let m1 := a.sumAcc / a.countAcc
    let m2 := a.sumSqAcc / a.countAcc
    let m3 := a.sumCubeAcc / a.countAcc
    let m4 := a.sumQuadAcc / a.countAcc
    let mu2 := m2 - m1 ^ 2
    let mu4 := m4 - 4 * m1 * m3 + 6 * m1 ^ 2 * m2 - 3 * m1 ^ 4
    some (mu4 / mu2 ^ 2 - 3)

/-- An area strategy: maps the two corners `(x0, y0)`, `(x1, y1)` of an
axis-aligned rectangle to its area (the boost `Strategy` template
parameter of `push_linear`). -/
abbrev AreaFn := ℚ → ℚ → ℚ → ℚ → ℚ

/-- The planar Cartesian area strategy: flat coordinate area of the
rectangle. -/
def planarArea : AreaFn := fun x0 y0 x1 y1 => (x1 - x0) * (y1 - y0)

/-- Modelled from the spec: `AreaWeightStrategy`
(`detail::math::binning<Point, Strategy>` in the code, not among the
sources): rectangular sub-area partitioning of the cell
`[x0, x1] × [y0, y1]` by the sample point `(x, y)`; each corner receives
the area of the opposite sub-rectangle, normalized by the total, under
the given area strategy.  Returns `(w00, w01, w10, w11)` for corners
`(x0, y0), (x0, y1), (x1, y0), (x1, y1)`. -/
def binning (area : AreaFn) (x y x0 y0 x1 y1 : ℚ) : ℚ × ℚ × ℚ × ℚ :=
  let a00 := area x y x1 y1
  let a01 := area x y0 x1 y
  let a10 := area x0 y x y1
  let a11 := area x0 y0 x y
  let total := a00 + a01 + a10 + a11
  (a00 / total, a01 / total, a10 / total, a11 / total)

namespace window

/-- Hamming window function (`window::hamming`); `cpi t` stands for the
transcendental `cos (π * t)` of the code, abstracted as a parameter. -/
def hamming (cpi : ℚ → ℚ) (d r : ℚ) : ℚ :=
  if d ≤ r then 0.53836 - 0.46164 * cpi ((d + r) / r) else 0

/-- Blackman window function (`window::blackman`). -/
def blackman (cpi : ℚ → ℚ) (d r : ℚ) : ℚ :=
  if d ≤ r then
    let ratio := (d + r) / r
    (7938 : ℚ) / 18608 - 9240 / 18608 * cpi ratio + 1430 / 18608 * cpi (2 * ratio)
  else 0

/-- Flat top window function (`window::flat_top`). -/
def flat_top (cpi : ℚ → ℚ) (d r : ℚ) : ℚ :=
  if d ≤ r then
    let ratio := (d + r) / r
    0.21557895 - 0.41663158 * cpi ratio + 0.277263158 * cpi (2 * ratio)
      - 0.083578947 * cpi (3 * ratio) + 0.006947368 * cpi (4 * ratio)
  else 0

/-- Nuttall window function (`window::nuttall`). -/
def nuttall (cpi : ℚ → ℚ) (d r : ℚ) : ℚ :=
  if d ≤ r then
    let ratio := (d + r) / r
    0.3635819 - 0.4891775 * cpi ratio + 0.1365995 * cpi (2 * ratio)
  else 0

/-- Blackman-Harris window function (`window::blackman_harris`). -/
def blackman_harris (cpi : ℚ → ℚ) (d r : ℚ) : ℚ :=
  if d ≤ r then
    let ratio := (d + r) / r
    0.35875 - 0.48829 * cpi ratio + 0.14128 * cpi (2 * ratio)
      - 0.01168 * cpi (3 * ratio)
  else 0

/-- Lanczos window function (`window::lanczos`); `sincf` abstracts the
transcendental `sinc`. -/
def lanczos (sincf : ℚ → ℚ) (d r : ℚ) : ℚ :=
  if d ≤ r then sincf (2 * (d + r) / (2 * r) - 1) else 0

/-- Parzen window function (`window::parzen`), translated branch by
branch from the code. -/
def parzen (d r : ℚ) : ℚ :=
  let ratio := d / r
  let l := 2 * r
  if d ≤ l / 4 then 1 - 6 * ratio ^ 2 * (1 - ratio)
  else if l / 2 ≤ r ∨ d > l / 4 then 2 * (1 - ratio) ^ 3
  else 0

/-- Parzen window variant used for SWOT products (`window::parzen_swot`),
translated branch by branch from the code. -/
def parzen_swot (d r : ℚ) : ℚ :=
  let l := 2 * r
  let ratio := 2 * d / l
  if d ≤ l / 4 then 1 - 6 * ratio ^ 2 + 6 * ratio ^ 3
  else if d ≤ l / 2 ∨ d > l / 4 then 2 * (1 - ratio) ^ 3
  else 0

end window

/-- The `Binning2D` engine state: two axes, the dense per-cell accumulator
array (embedded as a total function on cell indices; only indices below
the axis sizes are ever touched or read out), and the optional ellipsoid
model `wgs_` holding semi-major and semi-minor axis lengths. -/
structure Binning2D where
  x_ : Axis
  y_ : Axis
  acc_ : ℕ → ℕ → Accumulators
  wgs_ : Option (ℚ × ℚ)

/-- A freshly constructed engine: every cell accumulator is empty. -/
def Binning2D.init (x y : Axis) (wgs : Option (ℚ × ℚ)) : Binning2D :=
  ⟨x, y, fun _ _ => Accumulators.empty, wgs⟩

/-- Gets the X-Axis (the C++ accessor `x()`). -/
def Binning2D.x (b : Binning2D) : Axis := b.x_

/-- Gets the Y-Axis (the C++ accessor `y()`). -/
def Binning2D.y (b : Binning2D) : Axis := b.y_

/-- Reset the statistics (the C++ `clear()`): the accumulator matrix is
re-created with the same shape `x_.size() × y_.size()`. -/
def Binning2D.clear (b : Binning2D) : Binning2D :=
  { b with acc_ := fun _ _ => Accumulators.empty }

/-- Point update of the accumulator array at one cell. -/
def updAcc (f : ℕ → ℕ → Accumulators) (ix iy : ℕ)
    (g : Accumulators → Accumulators) : ℕ → ℕ → Accumulators :=
  fun i j => if i = ix ∧ j = iy then g (f i j) else f i j

/-- One iteration of the `push_nearest` loop on the sample `(x, y, z)`:
skip NaN values, resolve both axes with `find_index(·, true)`, and when
both resolve accumulate the raw value into that single cell. -/
def Binning2D.nearestStep (b : Binning2D) (s : ℚ × ℚ × Option ℚ) : Binning2D :=
  match s.2.2 with
  | none => b
  | some v =>
    match b.x_.find_index s.1 true, b.y_.find_index s.2.1 true with
    | some ix, some iy => { b with acc_ := updAcc b.acc_ ix iy (·.accumulate v) }
    | _, _ => b

/-- The four corner weights `push_linear` computes for a sample resolved
to the cell `(ix0, iy0)-(ix1, iy1)`: the sample x-coordinate is first
normalized against the lower corner edge `x0` when the x-axis is angular,
then fed to the area-weight computation. -/
def Binning2D.linearWeights (area : AreaFn) (b : Binning2D) (x y : ℚ)
    (ix0 ix1 iy0 iy1 : ℕ) : ℚ × ℚ × ℚ × ℚ :=
  let x0 := b.x_.edges.getD ix0 0
  let xn := if b.x_.angular then normalize_angle x x0 360 else x
  binning area xn y x0 (b.y_.edges.getD iy0 0) (b.x_.edges.getD ix1 0)
    (b.y_.edges.getD iy1 0)

/-- One iteration of the `push_linear` loop on the sample `(x, y, z)`:
skip NaN values, resolve bracketing pairs on both axes with
`find_indexes`; when both resolve, compute the four corner weights and
accumulate `value * weight` into each of the four corner cells. -/
def Binning2D.linearStep (area : AreaFn) (b : Binning2D)
    (s : ℚ × ℚ × Option ℚ) : Binning2D :=
  match s.2.2 with
  | none => b
  | some v =>
    match b.x_.find_indexes s.1, b.y_.find_indexes s.2.1 with
    | some (ix0, ix1), some (iy0, iy1) =>
      let w := Binning2D.linearWeights area b s.1 s.2.1 ix0 ix1 iy0 iy1
      let a1 := updAcc b.acc_ ix0 iy0 (·.accumulate (v * w.1))
      let a2 := updAcc a1 ix0 iy1 (·.accumulate (v * w.2.1))
      let a3 := updAcc a2 ix1 iy0 (·.accumulate (v * w.2.2.1))
      let a4 := updAcc a3 ix1 iy1 (·.accumulate (v * w.2.2.2))
      { b with acc_ := a4 }
    | _, _ => b

/-- Zip the three parallel coordinate/value sequences into samples. -/
def zip3 (xs ys : List ℚ) (zs : List (Option ℚ)) : List (ℚ × ℚ × Option ℚ) :=
  xs.zip (ys.zip zs)

/-- The C++ `push_nearest` loop over a whole batch. -/
def Binning2D.push_nearest (b : Binning2D) (xs ys : List ℚ)
    (zs : List (Option ℚ)) : Binning2D :=
  (zip3 xs ys zs).foldl Binning2D.nearestStep b

/-- The C++ `push_linear` loop over a whole batch, for a given area
strategy. -/
def Binning2D.push_linear (area : AreaFn) (b : Binning2D) (xs ys : List ℚ)
    (zs : List (Option ℚ)) : Binning2D :=
  (zip3 xs ys zs).foldl (Binning2D.linearStep area) b

/-- The C++ `push(x, y, z, simple)` entry point.  The shape checks
(`check_array_ndim` / `check_ndarray_shape`, modelled from the spec:
inputs must be equal-length one-dimensional sequences) run before any
accumulation; on failure the call reports a shape-mismatch error and no
state is produced.  Otherwise dispatch: `simple` selects the nearest
loop; else the Cartesian planar area strategy when no ellipsoid model is
set, or the geographic strategy built from the ellipsoid axes.  The
geographic strategy itself lives in boost (outside the sources, and
declared out of scope by the spec), so it enters as the parameter `geo`
mapping semi-major and semi-minor axis lengths to an area function,
mirroring the `Strategy` template parameter.  `pushBody` is the
accumulation work performed after the shape checks pass: `simple`
selects the nearest loop; otherwise the Cartesian planar area strategy
is used when no ellipsoid model is set, else the geographic strategy
built from the ellipsoid axes. -/
def Binning2D.pushBody (geo : ℚ → ℚ → AreaFn) (b : Binning2D)
    (xs ys : List ℚ) (zs : List (Option ℚ)) (simple : Bool) : Binning2D :=
  if simple then b.push_nearest xs ys zs
  else
    match b.wgs_ with
    | none => b.push_linear planarArea xs ys zs
    | some (sa, sb) => b.push_linear (geo sa sb) xs ys zs

/-- The C++ `push(x, y, z, simple)` entry point: the shape checks run
before any accumulation; on failure the call reports a shape-mismatch
error and no state is produced. -/
def Binning2D.push (geo : ℚ → ℚ → AreaFn) (b : Binning2D) (xs ys : List ℚ)
    (zs : List (Option ℚ)) (simple : Bool) : Except String Binning2D :=
  if xs.length = ys.length ∧ ys.length = zs.length then
    .ok (b.pushBody geo xs ys zs simple)
  else .error "x, y, z must be one-dimensional arrays of the same shape"

/-- The C++ `calculate_statistics(func)`: the dense per-cell array of one
statistic, embedded as the function on cell indices. -/
def Binning2D.calculate_statistics {α : Type} (func : Accumulators → α)
    (b : Binning2D) : ℕ → ℕ → α :=
  fun ix iy => func (b.acc_ ix iy)

/-- The `count()` query. -/
def Binning2D.count (b : Binning2D) : ℕ → ℕ → ℕ :=
  b.calculate_statistics Accumulators.count

/-- The `sum()` query. -/
def Binning2D.sum (b : Binning2D) : ℕ → ℕ → ℚ :=
  b.calculate_statistics Accumulators.sum

/-- The `mean()` query. -/
def Binning2D.mean (b : Binning2D) : ℕ → ℕ → Option ℚ :=
  b.calculate_statistics Accumulators.mean

/-- The `variance()` query. -/
def Binning2D.variance (b : Binning2D) : ℕ → ℕ → Option ℚ :=
  b.calculate_statistics Accumulators.variance

/-- The `min()` query. -/
def Binning2D.minStat (b : Binning2D) : ℕ → ℕ → Option ℚ :=
  b.calculate_statistics Accumulators.min

/-- The `max()` query. -/
def Binning2D.maxStat (b : Binning2D) : ℕ → ℕ → Option ℚ :=
  b.calculate_statistics Accumulators.max

/-- The `median()` query. -/
def Binning2D.medianStat (b : Binning2D) : ℕ → ℕ → Option ℚ :=
  b.calculate_statistics Accumulators.median

/-- The `skewness()` query. -/
def Binning2D.skewnessStat (b : Binning2D) : ℕ → ℕ → Option ℚ :=
  b.calculate_statistics Accumulators.skewness

/-- The `kurtosis()` query. -/
def Binning2D.kurtosisStat (b : Binning2D) : ℕ → ℕ → Option ℚ :=
  b.calculate_statistics Accumulators.kurtosis

/-- Total number of absorbed contributions over every cell of the grid:
the sum of the `count()` array. -/
def Binning2D.totalCount (b : Binning2D) : ℕ :=
  ∑ i ∈ Finset.range b.x_.size, ∑ j ∈ Finset.range b.y_.size, b.count i j

/-- A shared concrete axis with edges 0, 1, 2. -/
def axis012 : Axis := ⟨[0, 1, 2], false⟩

/-- A shared concrete planar 3 × 3 engine over `axis012`. -/
def grid0 : Binning2D := Binning2D.init axis012 axis012 none

/-- A shared concrete geographic-strategy stand-in for closed instances
(irrelevant whenever the engine is planar). -/
def geoPl : ℚ → ℚ → AreaFn := fun _ _ => planarArea

/-- A shared concrete angular axis with edges 0, 360. -/
def axisAng : Axis := ⟨[0, 360], true⟩

/-- A shared concrete engine with an angular x-axis. -/
def gridAng : Binning2D := Binning2D.init axisAng axis012 none

/-- One batch of parallel input sequences for a single `push` call. -/
abbrev Batch := List ℚ × List ℚ × List (Option ℚ)

/-- Well-formedness of a batch: the three sequences have one and the
same length (the shape precondition of `push`). -/
def batchWF (t : Batch) : Prop :=
  t.1.length = t.2.1.length ∧ t.2.1.length = t.2.2.length

/-- The x-sequence of the concatenation of several consecutive batches. -/
def catX (bs : List Batch) : List ℚ := (bs.map fun t => t.1).flatten

/-- The y-sequence of the concatenation of several consecutive batches. -/
def catY (bs : List Batch) : List ℚ := (bs.map fun t => t.2.1).flatten

/-- The z-sequence of the concatenation of several consecutive batches. -/
def catZ (bs : List Batch) : List (Option ℚ) :=
  (bs.map fun t => t.2.2).flatten

/-- Successive `push` calls, one per batch, propagating the first
error. -/
def pushSeq (geo : ℚ → ℚ → AreaFn) (simple : Bool) :
    Binning2D → List Batch → Except String Binning2D
  | b, [] => .ok b
  | b, t :: ts =>
    match Binning2D.push geo b t.1 t.2.1 t.2.2 simple with
    | .ok b1 => pushSeq geo simple b1 ts
    | .error e => .error e

/-! ## Helper lemmas -/

lemma count_foldl_accumulate (vs : List ℚ) :
    ∀ a : Accumulators,
      (vs.foldl Accumulators.accumulate a).countAcc = a.countAcc + vs.length := by
  induction vs with
  | nil => intro a; simp
  | cons v vs ih =>
    intro a
    simp only [List.foldl_cons, ih, Accumulators.accumulate, List.length_cons]
    omega

lemma find_indexes_adjacent (ax : Axis) (x : ℚ) (a c : ℕ)
    (h : ax.find_indexes x = some (a, c)) : c = a + 1 ∧ a + 1 < ax.edges.length := by
  rcases hed : ax.edges with _ | ⟨e, es⟩
  · simp only [Axis.find_indexes, hed] at h
    exact absurd h (by simp)
  · simp only [Axis.find_indexes, hed] at h
    rcases hf : (List.range es.length).find? (fun i =>
        decide ((e :: es).getD i 0 ≤ ax.wrap x ∧
          ax.wrap x ≤ (e :: es).getD (i + 1) 0)) with _ | i
    · rw [hf] at h; exact absurd h (by simp)
    · rw [hf] at h
      simp only [Option.some.injEq, Prod.mk.injEq] at h
      have hmem : i ∈ List.range es.length := List.mem_of_find?_eq_some hf
      have hlt : i < es.length := List.mem_range.mp hmem
      simp only [List.length_cons]
      omega

lemma normalize_angle_add_int (x r : ℚ) (k : ℤ) :
    normalize_angle (x + 360 * k) r 360 = normalize_angle x r 360 := by
  unfold normalize_angle
  have hq : (x + 360 * k - r) / 360 = (x - r) / 360 + k := by
    field_simp
    ring
  rw [hq, Int.floor_add_int]
  push_cast
  ring

lemma wrap_add_int (ax : Axis) (hang : ax.angular = true)
    (hne : ax.edges ≠ []) (x : ℚ) (k : ℤ) :
    ax.wrap (x + 360 * k) = ax.wrap x := by
  rcases hed : ax.edges with _ | ⟨e, es⟩
  · exact absurd hed hne
  · simp only [Axis.wrap, hed, hang, if_true]
    exact normalize_angle_add_int x e k

lemma find_indexes_add_int (ax : Axis) (hang : ax.angular = true)
    (x : ℚ) (k : ℤ) :
    ax.find_indexes (x + 360 * k) = ax.find_indexes x := by
  rcases hed : ax.edges with _ | ⟨e, es⟩
  · simp only [Axis.find_indexes, hed]
  · simp only [Axis.find_indexes, hed]
    rw [wrap_add_int ax hang (by simp [hed]) x k]

lemma nearestStep_config (b : Binning2D) (s : ℚ × ℚ × Option ℚ) :
    (b.nearestStep s).x_ = b.x_ ∧ (b.nearestStep s).y_ = b.y_ ∧
      (b.nearestStep s).wgs_ = b.wgs_ := by
  rcases s with ⟨sx, sy, sz⟩
  cases sz with
  | none => exact ⟨rfl, rfl, rfl⟩
  | some v =>
    rcases hix : b.x_.find_index sx true with _ | ix
    · simp [Binning2D.nearestStep, hix]
    · rcases hiy : b.y_.find_index sy true with _ | iy
      · simp [Binning2D.nearestStep, hix, hiy]
      · simp [Binning2D.nearestStep, hix, hiy]

lemma linearStep_config (area : AreaFn) (b : Binning2D)
    (s : ℚ × ℚ × Option ℚ) :
    (Binning2D.linearStep area b s).x_ = b.x_ ∧
      (Binning2D.linearStep area b s).y_ = b.y_ ∧
      (Binning2D.linearStep area b s).wgs_ = b.wgs_ := by
  rcases s with ⟨sx, sy, sz⟩
  cases sz with
  | none => exact ⟨rfl, rfl, rfl⟩
  | some v =>
    rcases hix : b.x_.find_indexes sx with _ | ⟨ix0, ix1⟩
    · simp [Binning2D.linearStep, hix]
    · rcases hiy : b.y_.find_indexes sy with _ | ⟨iy0, iy1⟩
      · simp [Binning2D.linearStep, hix, hiy]
      · simp [Binning2D.linearStep, hix, hiy]

lemma foldl_config {f : Binning2D → (ℚ × ℚ × Option ℚ) → Binning2D}
    (hf : ∀ b s, (f b s).x_ = b.x_ ∧ (f b s).y_ = b.y_ ∧
      (f b s).wgs_ = b.wgs_) :
    ∀ (l : List (ℚ × ℚ × Option ℚ)) (b : Binning2D),
      (l.foldl f b).x_ = b.x_ ∧ (l.foldl f b).y_ = b.y_ ∧
        (l.foldl f b).wgs_ = b.wgs_ := by
  intro l
  induction l with
  | nil => intro b; exact ⟨rfl, rfl, rfl⟩
  | cons s l ih =>
    intro b
    obtain ⟨h1, h2, h3⟩ := ih (f b s)
    obtain ⟨g1, g2, g3⟩ := hf b s
    exact ⟨h1.trans g1, h2.trans g2, h3.trans g3⟩

lemma pushBody_config (geo : ℚ → ℚ → AreaFn) (b : Binning2D)
    (xs ys : List ℚ) (zs : List (Option ℚ)) (simple : Bool) :
    (b.pushBody geo xs ys zs simple).x_ = b.x_ ∧
      (b.pushBody geo xs ys zs simple).y_ = b.y_ ∧
      (b.pushBody geo xs ys zs simple).wgs_ = b.wgs_ := by
  unfold Binning2D.pushBody Binning2D.push_nearest Binning2D.push_linear
  cases simple with
  | true =>
    simp only [if_true]
    exact foldl_config nearestStep_config (zip3 xs ys zs) b
  | false =>
    simp only [Bool.false_eq_true, if_false]
    rcases hw : b.wgs_ with _ | ⟨sa, sb⟩
    · have h := foldl_config (linearStep_config planarArea) (zip3 xs ys zs) b
      exact ⟨h.1, h.2.1, h.2.2.trans hw⟩
    · have h := foldl_config (linearStep_config (geo sa sb)) (zip3 xs ys zs) b
      exact ⟨h.1, h.2.1, h.2.2.trans hw⟩

lemma zip3_append (xs1 xs2 ys1 ys2 : List ℚ) (zs1 zs2 : List (Option ℚ))
    (h1 : xs1.length = ys1.length) (h2 : ys1.length = zs1.length) :
    zip3 (xs1 ++ xs2) (ys1 ++ ys2) (zs1 ++ zs2) =
      zip3 xs1 ys1 zs1 ++ zip3 xs2 ys2 zs2 := by
  unfold zip3
  rw [List.zip_append h2, List.zip_append]
  rw [List.length_zip, h1, h2, Nat.min_self]

lemma pushBody_nil (geo : ℚ → ℚ → AreaFn) (b : Binning2D) (simple : Bool) :
    b.pushBody geo [] [] [] simple = b := by
  unfold Binning2D.pushBody
  cases simple with
  | true => rfl
  | false =>
    simp only [Bool.false_eq_true, if_false]
    rcases hw : b.wgs_ with _ | ⟨sa, sb⟩ <;> rfl

lemma pushBody_append (geo : ℚ → ℚ → AreaFn) (b : Binning2D)
    (xs1 ys1 : List ℚ) (zs1 : List (Option ℚ)) (xs2 ys2 : List ℚ)
    (zs2 : List (Option ℚ)) (simple : Bool)
    (h1 : xs1.length = ys1.length) (h2 : ys1.length = zs1.length) :
    b.pushBody geo (xs1 ++ xs2) (ys1 ++ ys2) (zs1 ++ zs2) simple =
      (b.pushBody geo xs1 ys1 zs1 simple).pushBody geo xs2 ys2 zs2 simple := by
  have hz := zip3_append xs1 xs2 ys1 ys2 zs1 zs2 h1 h2
  unfold Binning2D.pushBody Binning2D.push_nearest Binning2D.push_linear
  cases simple with
  | true =>
    simp only [if_true]
    rw [hz, List.foldl_append]
  | false =>
    simp only [Bool.false_eq_true, if_false]
    rcases hw : b.wgs_ with _ | ⟨sa, sb⟩
    · have hw2 : ((zip3 xs1 ys1 zs1).foldl
          (Binning2D.linearStep planarArea) b).wgs_ = none := by
        rw [(foldl_config (linearStep_config planarArea) _ b).2.2, hw]
      simp only [hz, List.foldl_append, hw2]
    · have hw2 : ((zip3 xs1 ys1 zs1).foldl
          (Binning2D.linearStep (geo sa sb)) b).wgs_ = some (sa, sb) := by
        rw [(foldl_config (linearStep_config (geo sa sb)) _ b).2.2, hw]
      simp only [hz, List.foldl_append, hw2]

lemma cat_lengths (bs : List Batch) (h : ∀ t ∈ bs, batchWF t) :
    (catX bs).length = (catY bs).length ∧
      (catY bs).length = (catZ bs).length := by
  induction bs with
  | nil => exact ⟨rfl, rfl⟩
  | cons t ts ih =>
    obtain ⟨ht1, ht2⟩ := h t (List.mem_cons_self t ts)
    obtain ⟨ih1, ih2⟩ := ih (fun u hu => h u (List.mem_cons_of_mem t hu))
    simp only [catX, catY, catZ, List.map_cons, List.flatten_cons,
      List.length_append] at ih1 ih2 ⊢
    omega

lemma pushSeq_concat (geo : ℚ → ℚ → AreaFn) (simple : Bool) :
    ∀ (bs : List Batch) (b : Binning2D), (∀ t ∈ bs, batchWF t) →
      pushSeq geo simple b bs =
        .ok (b.pushBody geo (catX bs) (catY bs) (catZ bs) simple) := by
  intro bs
  induction bs with
  | nil =>
    intro b _
    simp only [pushSeq, catX, catY, catZ, List.map_nil, List.flatten_nil,
      pushBody_nil]
  | cons t ts ih =>
    intro b h
    obtain ⟨ht1, ht2⟩ := h t (List.mem_cons_self t ts)
    have hpush : Binning2D.push geo b t.1 t.2.1 t.2.2 simple =
        .ok (b.pushBody geo t.1 t.2.1 t.2.2 simple) := by
      unfold Binning2D.push
      rw [if_pos ⟨ht1, ht2⟩]
    simp only [pushSeq, hpush]
    rw [ih _ (fun u hu => h u (List.mem_cons_of_mem t hu))]
    simp only [catX, catY, catZ, List.map_cons, List.flatten_cons]
    rw [pushBody_append geo b t.1 t.2.1 t.2.2 _ _ _ simple ht1 ht2]

lemma foldl_select_lt (c : ℕ → ℕ → Prop) [∀ a b, Decidable (c a b)] :
    ∀ (l : List ℕ) (b n : ℕ), b < n → (∀ i ∈ l, i < n) →
      l.foldl (fun best i => if c best i then i else best) b < n := by
  intro l
  induction l with
  | nil => intro b n hb _; simpa using hb
  | cons a l ih =>
    intro b n hb hl
    simp only [List.foldl_cons]
    refine ih _ n ?_ (fun i hi => hl i (List.mem_cons_of_mem a hi))
    by_cases hc : c b a
    · rw [if_pos hc]; exact hl a (List.mem_cons_self a l)
    · rw [if_neg hc]; exact hb

lemma nearestIdx_lt (edges : List ℚ) (hne : edges ≠ []) (v : ℚ) :
    nearestIdx edges v < edges.length := by
  unfold nearestIdx
  refine foldl_select_lt _ (List.range edges.length) 0 edges.length
    ?_ (fun i hi => List.mem_range.mp hi)
  exact List.length_pos.mpr hne

lemma find_index_clamp_lt (ax : Axis) (hne : ax.edges ≠ []) (x : ℚ) :
    ∃ i, ax.find_index x true = some i ∧ i < ax.edges.length := by
  rcases hed : ax.edges with _ | ⟨e, es⟩
  · exact absurd hed hne
  · simp only [Axis.find_index, hed]
    by_cases h1 : ax.wrap x < e
    · refine ⟨0, ?_, by simp⟩
      simp [h1]
    · by_cases h2 : (e :: es).getLast (by simp) < ax.wrap x
      · refine ⟨es.length, ?_, by simp⟩
        simp only [if_neg h1]
        rw [if_pos h2]
        simp
      · refine ⟨nearestIdx (e :: es) (ax.wrap x), ?_, ?_⟩
        · simp only [if_neg h1]
          rw [if_neg h2]
        · have := nearestIdx_lt (e :: es) (by simp) (ax.wrap x)
          simpa [hed] using this

lemma totalCount_accumulate (b : Binning2D) (ix iy : ℕ) (v : ℚ)
    (hix : ix < b.x_.size) (hiy : iy < b.y_.size) :
    Binning2D.totalCount
        { b with acc_ := updAcc b.acc_ ix iy (·.accumulate v) } =
      b.totalCount + 1 := by
  have hpt : ∀ i j, (updAcc b.acc_ ix iy (·.accumulate v) i j).countAcc
      = (b.acc_ i j).countAcc + (if i = ix ∧ j = iy then 1 else 0) := by
    intro i j
    unfold updAcc
    split_ifs with h
    · simp [Accumulators.accumulate]
    · simp
  unfold Binning2D.totalCount Binning2D.count
    Binning2D.calculate_statistics Accumulators.count
  simp only [hpt, Finset.sum_add_distrib, ite_and, Finset.sum_ite_irrel,
    Finset.sum_const_zero, Finset.sum_ite_eq', Finset.mem_range, hiy,
    if_true, hix]

lemma nearestStep_totalCount (b : Binning2D) (hx : b.x_.edges ≠ [])
    (hy : b.y_.edges ≠ []) (s : ℚ × ℚ × Option ℚ) :
    (b.nearestStep s).totalCount =
      b.totalCount + (if s.2.2.isSome then 1 else 0) := by
  rcases s with ⟨sx, sy, sz⟩
  cases sz with
  | none => simp [Binning2D.nearestStep]
  | some v =>
    obtain ⟨ix, hix, hixlt⟩ := find_index_clamp_lt b.x_ hx sx
    obtain ⟨iy, hiy, hiylt⟩ := find_index_clamp_lt b.y_ hy sy
    simp only [Binning2D.nearestStep, hix, hiy, Option.isSome_some,
      if_true]
    exact totalCount_accumulate b ix iy v hixlt hiylt

lemma push_nearest_fold_totalCount :
    ∀ (l : List (ℚ × ℚ × Option ℚ)) (b : Binning2D),
      b.x_.edges ≠ [] → b.y_.edges ≠ [] →
      (l.foldl Binning2D.nearestStep b).totalCount =
        b.totalCount + (l.filter (fun s => s.2.2.isSome)).length := by
  intro l
  induction l with
  | nil => intro b _ _; simp
  | cons s l ih =>
    intro b hx hy
    obtain ⟨hsx, hsy, _⟩ := nearestStep_config b s
    simp only [List.foldl_cons]
    rw [ih (b.nearestStep s) (hsx ▸ hx) (hsy ▸ hy),
      nearestStep_totalCount b hx hy s]
    rcases s with ⟨sx, sy, sz⟩
    cases sz with
    | none => simp [List.filter]
    | some v => simp [List.filter]; omega

lemma zip3_filter_length :
    ∀ (xs ys : List ℚ) (zs : List (Option ℚ)),
      xs.length = ys.length → ys.length = zs.length →
      ((zip3 xs ys zs).filter (fun s => s.2.2.isSome)).length =
        (zs.filter (fun z => z.isSome)).length := by
  intro xs
  induction xs with
  | nil =>
    intro ys zs h1 h2
    have hys : ys = [] := List.length_eq_zero.mp h1.symm
    have hzs : zs = [] := List.length_eq_zero.mp (hys ▸ h2).symm
    subst hys; subst hzs; rfl
  | cons xh xt ih =>
    intro ys zs h1 h2
    rcases ys with _ | ⟨yh, yt⟩
    · exact absurd h1 (by simp)
    · rcases zs with _ | ⟨zh, zt⟩
      · exact absurd h2 (by simp)
      · have hx : xt.length = yt.length := by simpa using h1
        have hz : yt.length = zt.length := by simpa using h2
        show ((((xh, yh, zh)) :: zip3 xt yt zt).filter
            (fun s => s.2.2.isSome)).length = _
        cases zh with
        | none => simpa [List.filter] using ih yt zt hx hz
        | some v => simpa [List.filter] using ih yt zt hx hz

/-! ## Claims -/

/-- Counterexample to claim C1: on the 3 × 3 planar grid, the single
sample `(10, 10, 1)` has a non-NaN value but coordinates outside both
axis domains; the claim predicts it contributes to no cell, hence a total
count of 0, yet the nearest-mode push calls `find_index` with clamp set,
so the sample is snapped to the edge cell `(2, 2)` and the total count
is 1. -/
theorem C1_out_of_domain_clamped_counterexample :
    ∃ b1, Binning2D.push geoPl grid0 [10] [10] [some 1] true =
        Except.ok b1 ∧
      axis012.inDomain 10 = false ∧
      b1.totalCount = 1 ∧ b1.count 2 2 = 1 := by
  refine ⟨grid0.push_nearest [10] [10] [some 1],
    by simp [Binning2D.push, Binning2D.pushBody], ?_, ?_, ?_⟩
  · norm_num [Axis.inDomain, axis012, List.getLast]
  · norm_num [Binning2D.totalCount, Binning2D.count,
      Binning2D.calculate_statistics, Binning2D.push_nearest, zip3,
      Binning2D.nearestStep, Axis.find_index, Axis.wrap, nearestIdx,
      axis012, grid0, Binning2D.init, Axis.size, Finset.sum_range_succ,
      List.range_succ, List.getD, List.getLast, updAcc,
      Accumulators.accumulate, Accumulators.empty, Accumulators.count]
  · norm_num [Binning2D.count, Binning2D.calculate_statistics,
      Binning2D.push_nearest, zip3, Binning2D.nearestStep,
      Axis.find_index, Axis.wrap, nearestIdx, axis012, grid0,
      Binning2D.init, List.range_succ, List.getD, List.getLast, updAcc,
      Accumulators.accumulate, Accumulators.empty, Accumulators.count]

/-- Claim C1, amended: in nearest mode, for every input batch over a
grid with nonempty axes, the sum of `count()` over all cells increases by
the number of samples whose z value is non-NaN; a sample whose
coordinates lie outside an axis domain is not dropped — `find_index` is
called with clamp set, so the coordinate snaps to the nearest axis edge
and the sample is counted in that edge cell — and no error is raised. -/
theorem C1_nearest_count_conservation_amended (geo : ℚ → ℚ → AreaFn)
    (b : Binning2D) (xs ys : List ℚ) (zs : List (Option ℚ))
    (h1 : xs.length = ys.length) (h2 : ys.length = zs.length)
    (hx : b.x_.edges ≠ []) (hy : b.y_.edges ≠ []) :
    ∃ b1, Binning2D.push geo b xs ys zs true = Except.ok b1 ∧
      b1.totalCount = b.totalCount +
        (zs.filter (fun z => z.isSome)).length := by
  refine ⟨b.push_nearest xs ys zs, ?_, ?_⟩
  · unfold Binning2D.push
    rw [if_pos ⟨h1, h2⟩]
    rfl
  · unfold Binning2D.push_nearest
    rw [push_nearest_fold_totalCount (zip3 xs ys zs) b hx hy,
      zip3_filter_length xs ys zs h1 h2]

/-- Witness for the amended claim C1: a batch with one out-of-domain
non-NaN sample and one NaN sample raises the total count by exactly 1. -/
theorem C1_nearest_count_conservation_amended_witness :
    ∃ b1, Binning2D.push geoPl grid0 [10, 1/2] [10, 1/2] [some 1, none]
        true = Except.ok b1 ∧
      b1.totalCount = grid0.totalCount +
        (([some 1, none] : List (Option ℚ)).filter
          (fun z => z.isSome)).length :=
  C1_nearest_count_conservation_amended geoPl grid0 [10, 1/2] [10, 1/2]
    [some 1, none] rfl rfl (by simp [grid0, Binning2D.init, axis012])
    (by simp [grid0, Binning2D.init, axis012])

/-- Claim C2: for every cell whose accumulator has absorbed zero samples
(an accumulator state reached from the fresh state by a sample sequence of
length zero), `count` returns 0, `sum` returns 0, and every other
statistic (min, max, mean, median, variance, skewness, kurtosis) returns
the no-data sentinel; all queries are total functions, so no exception
can propagate. -/
theorem C2_empty_accumulator_sentinels (vs : List ℚ)
    (h : (vs.foldl Accumulators.accumulate Accumulators.empty).count = 0) :
    vs.foldl Accumulators.accumulate Accumulators.empty = Accumulators.empty ∧
    Accumulators.empty.count = 0 ∧ Accumulators.empty.sum = 0 ∧
    Accumulators.empty.min = none ∧ Accumulators.empty.max = none ∧
    Accumulators.empty.mean = none ∧ Accumulators.empty.median = none ∧
    Accumulators.empty.variance = none ∧ Accumulators.empty.skewness = none ∧
    Accumulators.empty.kurtosis = none := by
  have h2 := count_foldl_accumulate vs Accumulators.empty
  simp only [Accumulators.count] at h
  rw [h] at h2
  simp only [Accumulators.empty] at h2
  have hnil : vs = [] := List.length_eq_zero.mp (by omega)
  subst hnil
  refine ⟨rfl, rfl, rfl, rfl, rfl, rfl, rfl, rfl, rfl, rfl⟩

/-- Witness for claim C2 at the concrete empty sample sequence. -/
theorem C2_empty_accumulator_sentinels_witness :
    ([] : List ℚ).foldl Accumulators.accumulate Accumulators.empty
        = Accumulators.empty ∧
    Accumulators.empty.count = 0 ∧ Accumulators.empty.sum = 0 ∧
    Accumulators.empty.min = none ∧ Accumulators.empty.max = none ∧
    Accumulators.empty.mean = none ∧ Accumulators.empty.median = none ∧
    Accumulators.empty.variance = none ∧ Accumulators.empty.skewness = none ∧
    Accumulators.empty.kurtosis = none :=
  C2_empty_accumulator_sentinels [] (by decide)

/-- Claim C9: after `clear()`, every cell reads count 0 and sum 0 and
every other statistic reads the empty-cell sentinel, while the two axis
objects — hence the grid shape `[Nx, Ny]` — are unchanged; this holds
from any engine state, i.e. after any sequence of operations. -/
theorem C9_clear_resets_state_not_shape (b : Binning2D) :
    b.clear.x = b.x ∧ b.clear.y = b.y ∧
    b.clear.x.size = b.x.size ∧ b.clear.y.size = b.y.size ∧
    ∀ i j, b.clear.count i j = 0 ∧ b.clear.sum i j = 0 ∧
      b.clear.minStat i j = none ∧ b.clear.maxStat i j = none ∧
      b.clear.mean i j = none ∧ b.clear.medianStat i j = none ∧
      b.clear.variance i j = none ∧ b.clear.skewnessStat i j = none ∧
      b.clear.kurtosisStat i j = none := by
  refine ⟨rfl, rfl, rfl, rfl, fun i j => ?_⟩
  refine ⟨rfl, rfl, rfl, rfl, rfl, rfl, rfl, rfl, rfl⟩

/-- Claim C8: pushing a dataset in one `push` call versus pushing its
consecutive batches in successive `push` calls yields identical final
count, sum, mean and variance for every cell (the streaming accumulation
is a fold over samples, insensitive to batch boundaries), in either
ingestion mode and for any engine. -/
theorem C8_batch_split_invariance (geo : ℚ → ℚ → AreaFn) (simple : Bool)
    (b : Binning2D) (bs : List Batch) (h : ∀ t ∈ bs, batchWF t) :
    ∃ bc bseq,
      Binning2D.push geo b (catX bs) (catY bs) (catZ bs) simple =
        Except.ok bc ∧
      pushSeq geo simple b bs = Except.ok bseq ∧
      ∀ i j, bc.count i j = bseq.count i j ∧ bc.sum i j = bseq.sum i j ∧
        bc.mean i j = bseq.mean i j ∧
        bc.variance i j = bseq.variance i j := by
  obtain ⟨hc1, hc2⟩ := cat_lengths bs h
  refine ⟨b.pushBody geo (catX bs) (catY bs) (catZ bs) simple,
    b.pushBody geo (catX bs) (catY bs) (catZ bs) simple, ?_, ?_,
    fun i j => ⟨rfl, rfl, rfl, rfl⟩⟩
  · unfold Binning2D.push
    rw [if_pos ⟨hc1, hc2⟩]
  · exact pushSeq_concat geo simple bs b h

/-- Witness for claim C8 on two concrete nearest-mode batches. -/
theorem C8_batch_split_invariance_witness :
    ∃ bc bseq,
      Binning2D.push geoPl grid0
          (catX [([1/2], [1/2], [some 10]), ([2/5], [2/5], [some 7])])
          (catY [([1/2], [1/2], [some 10]), ([2/5], [2/5], [some 7])])
          (catZ [([1/2], [1/2], [some 10]), ([2/5], [2/5], [some 7])])
          true = Except.ok bc ∧
      pushSeq geoPl true grid0
          [([1/2], [1/2], [some 10]), ([2/5], [2/5], [some 7])] =
        Except.ok bseq ∧
      ∀ i j, bc.count i j = bseq.count i j ∧ bc.sum i j = bseq.sum i j ∧
        bc.mean i j = bseq.mean i j ∧
        bc.variance i j = bseq.variance i j :=
  C8_batch_split_invariance geoPl true grid0
    [([1/2], [1/2], [some 10]), ([2/5], [2/5], [some 7])]
    (by simp [batchWF])

/-- Claim C10: outside the window radius (`d > r > 0`), hamming,
blackman, flat_top, nuttall, blackman_harris and lanczos all return
exactly 0, whereas parzen and parzen_swot instead return
`2 * (1 - d/r)^3`, which is strictly negative there, hence nonzero. -/
theorem C10_window_tails (cpi sincf : ℚ → ℚ) (d r : ℚ)
    (hr : 0 < r) (hd : r < d) :
    window.hamming cpi d r = 0 ∧ window.blackman cpi d r = 0 ∧
    window.flat_top cpi d r = 0 ∧ window.nuttall cpi d r = 0 ∧
    window.blackman_harris cpi d r = 0 ∧ window.lanczos sincf d r = 0 ∧
    window.parzen d r = 2 * (1 - d / r) ^ 3 ∧ window.parzen d r < 0 ∧
    window.parzen_swot d r = 2 * (1 - d / r) ^ 3 ∧
    window.parzen_swot d r < 0 := by
  have hnle : ¬ d ≤ r := not_le.mpr hd
  have hrne : r ≠ 0 := ne_of_gt hr
  have hratio : 1 < d / r := (one_lt_div hr).mpr hd
  have hneg : 2 * (1 - d / r) ^ 3 < 0 := by
    have h1 : 1 - d / r < 0 := by linarith
    have h3 : (1 - d / r) ^ 3 < 0 := Odd.pow_neg ⟨1, by norm_num⟩ h1
    linarith
  have hq1 : ¬ d ≤ 2 * r / 4 := by
    intro hc
    have : 2 * r / 4 ≤ r := by linarith
    exact hnle (le_trans hc this)
  have hparzen : window.parzen d r = 2 * (1 - d / r) ^ 3 := by
    simp only [window.parzen]
    rw [if_neg hq1, if_pos]
    left; linarith
  have hswotratio : 2 * d / (2 * r) = d / r :=
    mul_div_mul_left d r (by norm_num)
  have hswot : window.parzen_swot d r = 2 * (1 - d / r) ^ 3 := by
    simp only [window.parzen_swot]
    rw [if_neg hq1, if_pos, hswotratio]
    right; linarith
  refine ⟨?_, ?_, ?_, ?_, ?_, ?_, hparzen, hparzen ▸ hneg, hswot, hswot ▸ hneg⟩
  · simp only [window.hamming]; rw [if_neg hnle]
  · simp only [window.blackman]; rw [if_neg hnle]
  · simp only [window.flat_top]; rw [if_neg hnle]
  · simp only [window.nuttall]; rw [if_neg hnle]
  · simp only [window.blackman_harris]; rw [if_neg hnle]
  · simp only [window.lanczos]; rw [if_neg hnle]

/-- Witness for claim C10 at `d = 2`, `r = 1`. -/
theorem C10_window_tails_witness :
    window.hamming (fun _ => 0) 2 1 = 0 ∧
    window.blackman (fun _ => 0) 2 1 = 0 ∧
    window.flat_top (fun _ => 0) 2 1 = 0 ∧
    window.nuttall (fun _ => 0) 2 1 = 0 ∧
    window.blackman_harris (fun _ => 0) 2 1 = 0 ∧
    window.lanczos (fun _ => 0) 2 1 = 0 ∧
    window.parzen 2 1 = 2 * (1 - 2 / 1) ^ 3 ∧ window.parzen 2 1 < 0 ∧
    window.parzen_swot 2 1 = 2 * (1 - 2 / 1) ^ 3 ∧
    window.parzen_swot 2 1 < 0 :=
  C10_window_tails (fun _ => 0) (fun _ => 0) 2 1 (by norm_num) (by norm_num)

/-- Claim C3: for an in-domain sample point and its resolved cell
corners, under any area strategy that is nonnegative on the four
sub-rectangles of the partition and positive in total (which both the
planar and the ellipsoidal strategies are on a genuine cell), the four
weights computed by the area-weight computation are each nonnegative and
sum to exactly 1, in particular to 1 within the 1e-9 tolerance. -/
theorem C3_weight_conservation (area : AreaFn) (x y x0 y0 x1 y1 : ℚ)
    (_hx0 : x0 ≤ x) (_hx1 : x ≤ x1) (_hy0 : y0 ≤ y) (_hy1 : y ≤ y1)
    (h00 : 0 ≤ area x y x1 y1) (h01 : 0 ≤ area x y0 x1 y)
    (h10 : 0 ≤ area x0 y x y1) (h11 : 0 ≤ area x0 y0 x y)
    (htot : 0 < area x y x1 y1 + area x y0 x1 y + area x0 y x y1
      + area x0 y0 x y) :
    0 ≤ (binning area x y x0 y0 x1 y1).1 ∧
    0 ≤ (binning area x y x0 y0 x1 y1).2.1 ∧
    0 ≤ (binning area x y x0 y0 x1 y1).2.2.1 ∧
    0 ≤ (binning area x y x0 y0 x1 y1).2.2.2 ∧
    (binning area x y x0 y0 x1 y1).1 + (binning area x y x0 y0 x1 y1).2.1
      + (binning area x y x0 y0 x1 y1).2.2.1
      + (binning area x y x0 y0 x1 y1).2.2.2 = 1 ∧
    |(binning area x y x0 y0 x1 y1).1 + (binning area x y x0 y0 x1 y1).2.1
      + (binning area x y x0 y0 x1 y1).2.2.1
      + (binning area x y x0 y0 x1 y1).2.2.2 - 1| ≤ 1 / 1000000000 := by
  have htne : area x y x1 y1 + area x y0 x1 y + area x0 y x y1
      + area x0 y0 x y ≠ 0 := ne_of_gt htot
  have htle := le_of_lt htot
  simp only [binning]
  refine ⟨div_nonneg h00 htle, div_nonneg h01 htle, div_nonneg h10 htle,
    div_nonneg h11 htle, ?_, ?_⟩
  · rw [div_add_div_same, div_add_div_same, div_add_div_same,
      div_self htne]
  · rw [div_add_div_same, div_add_div_same, div_add_div_same,
      div_self htne]
    norm_num

/-- Witness for claim C3: the planar strategy at the sample
`(1/2, 1/2)` in the cell `[0, 1] × [0, 1]`. -/
theorem C3_weight_conservation_witness :
    0 ≤ (binning planarArea (1/2) (1/2) 0 0 1 1).1 ∧
    0 ≤ (binning planarArea (1/2) (1/2) 0 0 1 1).2.1 ∧
    0 ≤ (binning planarArea (1/2) (1/2) 0 0 1 1).2.2.1 ∧
    0 ≤ (binning planarArea (1/2) (1/2) 0 0 1 1).2.2.2 ∧
    (binning planarArea (1/2) (1/2) 0 0 1 1).1
      + (binning planarArea (1/2) (1/2) 0 0 1 1).2.1
      + (binning planarArea (1/2) (1/2) 0 0 1 1).2.2.1
      + (binning planarArea (1/2) (1/2) 0 0 1 1).2.2.2 = 1 ∧
    |(binning planarArea (1/2) (1/2) 0 0 1 1).1
      + (binning planarArea (1/2) (1/2) 0 0 1 1).2.1
      + (binning planarArea (1/2) (1/2) 0 0 1 1).2.2.1
      + (binning planarArea (1/2) (1/2) 0 0 1 1).2.2.2 - 1|
      ≤ 1 / 1000000000 :=
  C3_weight_conservation planarArea (1/2) (1/2) 0 0 1 1 (by norm_num)
    (by norm_num) (by norm_num) (by norm_num) (by norm_num [planarArea])
    (by norm_num [planarArea]) (by norm_num [planarArea])
    (by norm_num [planarArea]) (by norm_num [planarArea])

/-- Claim C4: pushing the single sample `(1/2, 1/2, 10)` in linear mode
into the planar grid with x-edges and y-edges `[0, 1, 2]` computes the
four corner weights all equal to `1/4`, leaves each of the four corner
cells `(0,0), (0,1), (1,0), (1,1)` with count 1, sum `5/2` and mean
`5/2`, and leaves every other cell of the 3 × 3 grid with count 0. -/
theorem C4_concrete_planar_scenario (geo : ℚ → ℚ → AreaFn) :
    ∃ b1, Binning2D.push geo grid0 [1/2] [1/2] [some 10] false =
        Except.ok b1 ∧
      Binning2D.linearWeights planarArea grid0 (1/2) (1/2) 0 1 0 1 =
        (1/4, 1/4, 1/4, 1/4) ∧
      b1.count 0 0 = 1 ∧ b1.sum 0 0 = 5/2 ∧ b1.mean 0 0 = some (5/2) ∧
      b1.count 0 1 = 1 ∧ b1.sum 0 1 = 5/2 ∧ b1.mean 0 1 = some (5/2) ∧
      b1.count 1 0 = 1 ∧ b1.sum 1 0 = 5/2 ∧ b1.mean 1 0 = some (5/2) ∧
      b1.count 1 1 = 1 ∧ b1.sum 1 1 = 5/2 ∧ b1.mean 1 1 = some (5/2) ∧
      b1.count 0 2 = 0 ∧ b1.count 1 2 = 0 ∧ b1.count 2 0 = 0 ∧
      b1.count 2 1 = 0 ∧ b1.count 2 2 = 0 := by
  refine ⟨grid0.push_linear planarArea [1/2] [1/2] [some 10],
    by simp [Binning2D.push, Binning2D.pushBody, grid0, Binning2D.init], ?_⟩
  norm_num [Binning2D.push_linear, zip3, Binning2D.linearStep,
    Binning2D.linearWeights, Axis.find_indexes, Axis.wrap, axis012, grid0,
    Binning2D.init, List.find?, List.range_succ, binning, planarArea,
    updAcc, Binning2D.count, Binning2D.sum, Binning2D.mean,
    Binning2D.calculate_statistics, Accumulators.count, Accumulators.sum,
    Accumulators.mean, Accumulators.accumulate, Accumulators.empty,
    List.getD]

/-- Claim C5: the linear-mode treatment of one sample is all-or-nothing:
if its value is NaN or either axis reports no bracketing pair, no cell
accumulator changes at all; otherwise exactly four accumulations occur —
one per corner of the containing cell, corner `(ix0, iy0)` receiving
`value * w00` and so on — and every cell other than the four corners is
left untouched, so no state with only part of the four weighted
contributions applied exists. -/
theorem C5_linear_all_or_nothing (area : AreaFn) (b : Binning2D)
    (x y : ℚ) (z : Option ℚ) :
    ((z = none ∨ b.x_.find_indexes x = none ∨ b.y_.find_indexes y = none) →
      Binning2D.linearStep area b (x, y, z) = b) ∧
    (∀ v ix0 ix1 iy0 iy1, z = some v →
      b.x_.find_indexes x = some (ix0, ix1) →
      b.y_.find_indexes y = some (iy0, iy1) →
      (Binning2D.linearStep area b (x, y, z)).acc_ ix0 iy0 =
        (b.acc_ ix0 iy0).accumulate
          (v * (Binning2D.linearWeights area b x y ix0 ix1 iy0 iy1).1) ∧
      (Binning2D.linearStep area b (x, y, z)).acc_ ix0 iy1 =
        (b.acc_ ix0 iy1).accumulate
          (v * (Binning2D.linearWeights area b x y ix0 ix1 iy0 iy1).2.1) ∧
      (Binning2D.linearStep area b (x, y, z)).acc_ ix1 iy0 =
        (b.acc_ ix1 iy0).accumulate
          (v * (Binning2D.linearWeights area b x y ix0 ix1 iy0 iy1).2.2.1) ∧
      (Binning2D.linearStep area b (x, y, z)).acc_ ix1 iy1 =
        (b.acc_ ix1 iy1).accumulate
          (v * (Binning2D.linearWeights area b x y ix0 ix1 iy0 iy1).2.2.2) ∧
      ∀ i j, ¬((i = ix0 ∨ i = ix1) ∧ (j = iy0 ∨ j = iy1)) →
        (Binning2D.linearStep area b (x, y, z)).acc_ i j = b.acc_ i j) := by
  constructor
  · intro h
    rcases h with hz | hfx | hfy
    · subst hz; rfl
    · cases z with
      | none => rfl
      | some v => simp only [Binning2D.linearStep, hfx]
    · cases z with
      | none => rfl
      | some v =>
        rcases hfx : b.x_.find_indexes x with _ | ⟨ix0, ix1⟩
        · simp only [Binning2D.linearStep, hfx]
        · simp only [Binning2D.linearStep, hfx, hfy]
  · intro v ix0 ix1 iy0 iy1 hz hfx hfy
    subst hz
    obtain ⟨hx1, _⟩ := find_indexes_adjacent _ _ _ _ hfx
    obtain ⟨hy1, _⟩ := find_indexes_adjacent _ _ _ _ hfy
    subst hx1
    subst hy1
    simp only [Binning2D.linearStep, hfx, hfy]
    refine ⟨?_, ?_, ?_, ?_, ?_⟩
    · simp only [updAcc]
      rw [if_neg (by omega), if_neg (by omega), if_neg (by omega),
        if_pos (by trivial)]
    · simp only [updAcc]
      rw [if_neg (by omega), if_neg (by omega), if_pos (by trivial),
        if_neg (by omega)]
    · simp only [updAcc]
      rw [if_neg (by omega), if_pos (by trivial), if_neg (by omega),
        if_neg (by omega)]
    · simp only [updAcc]
      rw [if_pos (by trivial), if_neg (by omega), if_neg (by omega),
        if_neg (by omega)]
    · intro i j hij
      simp only [updAcc]
      rw [if_neg (by omega), if_neg (by omega), if_neg (by omega),
        if_neg (by omega)]

/-- Witness for claim C5: the sample `(1/2, 1/2, 10)` on the shared
planar 3 × 3 grid updates the corner cell `(0, 0)` by exactly its
weighted contribution and leaves the non-corner cell `(2, 2)`
untouched. -/
theorem C5_linear_all_or_nothing_witness :
    (Binning2D.linearStep planarArea grid0 (1/2, 1/2, some 10)).acc_ 0 0 =
      (grid0.acc_ 0 0).accumulate
        (10 * (Binning2D.linearWeights planarArea grid0 (1/2) (1/2) 0 1 0 1).1) ∧
    (Binning2D.linearStep planarArea grid0 (1/2, 1/2, some 10)).acc_ 2 2 =
      grid0.acc_ 2 2 := by
  have h := (C5_linear_all_or_nothing planarArea grid0 (1/2) (1/2)
      (some 10)).2 10 0 1 0 1 rfl
      (by norm_num [Axis.find_indexes, grid0, Binning2D.init, axis012,
        Axis.wrap, List.find?, List.range_succ])
      (by norm_num [Axis.find_indexes, grid0, Binning2D.init, axis012,
        Axis.wrap, List.find?, List.range_succ])
  exact ⟨h.1, h.2.2.2.2 2 2 (by omega)⟩

/-- Claim C6: in linear mode with an angular x-axis of period 360, the
sample x-coordinate is normalized into the same representative period as
the cell lower corner before weights are computed, so two samples at
wrap-equivalent x-coordinates (differing by an integer multiple of 360)
resolve to the same cell and produce identical four-corner weight splits
— indeed identical accumulator updates. -/
theorem C6_angular_wrap_equivalence (area : AreaFn) (b : Binning2D)
    (x x' y : ℚ) (z : Option ℚ) (k : ℤ)
    (hang : b.x_.angular = true) (hk : x' = x + 360 * (k : ℚ)) :
    b.x_.find_indexes x' = b.x_.find_indexes x ∧
    (∀ ix0 ix1 iy0 iy1,
      Binning2D.linearWeights area b x' y ix0 ix1 iy0 iy1 =
        Binning2D.linearWeights area b x y ix0 ix1 iy0 iy1) ∧
    Binning2D.linearStep area b (x', y, z) =
      Binning2D.linearStep area b (x, y, z) := by
  subst hk
  have h1 : b.x_.find_indexes (x + 360 * (k : ℚ)) = b.x_.find_indexes x :=
    find_indexes_add_int b.x_ hang x k
  have h2 : ∀ ix0 ix1 iy0 iy1,
      Binning2D.linearWeights area b (x + 360 * (k : ℚ)) y ix0 ix1 iy0 iy1 =
        Binning2D.linearWeights area b x y ix0 ix1 iy0 iy1 := by
    intro ix0 ix1 iy0 iy1
    simp only [Binning2D.linearWeights, hang, if_true]
    rw [normalize_angle_add_int]
  refine ⟨h1, h2, ?_⟩
  cases z with
  | none => rfl
  | some v =>
    rcases hfx : b.x_.find_indexes x with _ | ⟨ix0, ix1⟩
    · have hfx2 : b.x_.find_indexes (x + 360 * (k : ℚ)) = none := by
        rw [h1, hfx]
      simp only [Binning2D.linearStep, hfx, hfx2]
    · have hfx2 : b.x_.find_indexes (x + 360 * (k : ℚ)) = some (ix0, ix1) := by
        rw [h1, hfx]
      rcases hfy : b.y_.find_indexes y with _ | ⟨iy0, iy1⟩
      · simp only [Binning2D.linearStep, hfx, hfx2, hfy]
      · simp only [Binning2D.linearStep, hfx, hfx2, hfy]
        rw [h2 ix0 ix1 iy0 iy1]

/-- Witness for claim C6: on the angular grid, the wrap-equivalent
samples at `-1/10` and `3599/10` resolve identically and produce the
same weight split and the same state update. -/
theorem C6_angular_wrap_equivalence_witness :
    gridAng.x_.find_indexes (-1/10) = gridAng.x_.find_indexes (3599/10) ∧
    Binning2D.linearWeights planarArea gridAng (-1/10) (1/2) 0 1 0 1 =
      Binning2D.linearWeights planarArea gridAng (3599/10) (1/2) 0 1 0 1 ∧
    Binning2D.linearStep planarArea gridAng (-1/10, 1/2, some 1) =
      Binning2D.linearStep planarArea gridAng (3599/10, 1/2, some 1) := by
  have h := C6_angular_wrap_equivalence planarArea gridAng (3599/10)
    (-1/10) (1/2) (some 1) (-1) rfl (by norm_num)
  exact ⟨h.1, h.2.1 0 1 0 1, h.2.2⟩

/-- Claim C7: when the three input sequences do not have one and the same
length, `push` fails with the shape-mismatch error before any
accumulation: no engine state is produced by the call (so no cell
accumulator is modified, the caller keeps its state). -/
theorem C7_shape_mismatch_error (geo : ℚ → ℚ → AreaFn) (b : Binning2D)
    (xs ys : List ℚ) (zs : List (Option ℚ)) (simple : Bool)
    (h : ¬(xs.length = ys.length ∧ ys.length = zs.length)) :
    Binning2D.push geo b xs ys zs simple =
      Except.error "x, y, z must be one-dimensional arrays of the same shape" ∧
    ∀ b1, Binning2D.push geo b xs ys zs simple ≠ Except.ok b1 := by
  have he : Binning2D.push geo b xs ys zs simple =
      Except.error "x, y, z must be one-dimensional arrays of the same shape" := by
    simp only [Binning2D.push]
    rw [if_neg h]
  exact ⟨he, fun b1 hc => by rw [he] at hc; exact Except.noConfusion hc⟩

/-- Witness for claim C7 at a concrete length mismatch. -/
theorem C7_shape_mismatch_error_witness :
    Binning2D.push geoPl grid0 [1] [] [] true =
      Except.error "x, y, z must be one-dimensional arrays of the same shape" ∧
    ∀ b1, Binning2D.push geoPl grid0 [1] [] [] true ≠ Except.ok b1 :=
  C7_shape_mismatch_error geoPl grid0 [1] [] [] true (by decide)

end PyInterp
